import Mathlib

/-!
Verification of the DQN training core in spinup/algos/pytorch/dqn/dqn.py.

The replay buffer, the exploration schedule, the Bellman backup of
compute_loss_q, the update routine and the update gate of the training loop
are embedded as executable Lean definitions; machine floats are modelled by
rationals, numpy arrays by lists, and the pseudo-random draws of
np.random.randint by an arbitrary stream of naturals reduced into the
requested range.
-/

namespace SpinUpDQN

/-- Embedding of ReplayBuffer (dqn.py, lines 13-56).  The five parallel numpy
arrays obs_buf, obs2_buf, act_buf, rew_buf, done_buf are indexed together by
the same slot number, so they are embedded as one fixed-length list whose
element type is the transition record; `ptr`, `size` and `max_size` are the
fields set on line 24. -/
structure ReplayBuffer (α : Type) where
  data : List α
  ptr : ℕ
  size : ℕ
  max_size : ℕ

/-- Embedding of ReplayBuffer.__init__ (lines 18-24): capacity-many zeroed
slots, ptr = 0, size = 0, max_size = the capacity argument. -/
def ReplayBuffer.init (α : Type) [Inhabited α] (cap : ℕ) : ReplayBuffer α :=
  ⟨List.replicate cap default, 0, 0, cap⟩

/-- Embedding of ReplayBuffer.store (lines 26-36): write the transition at
slot ptr, advance ptr to (ptr + 1) % max_size, set size to
min (size + 1) max_size. -/
def ReplayBuffer.store (b : ReplayBuffer α) (x : α) : ReplayBuffer α :=
  { b with
    data := b.data.set b.ptr x
    ptr := (b.ptr + 1) % b.max_size
    size := min (b.size + 1) b.max_size }

/-- A sequence of store calls, first element stored first. -/
def ReplayBuffer.storeAll (b : ReplayBuffer α) (xs : List α) : ReplayBuffer α :=
  xs.foldl ReplayBuffer.store b

/-- Embedding of ReplayBuffer.__len__ (lines 52-56): the method returns
self.ptr. -/
def lenBuf (b : ReplayBuffer α) : ℕ := b.ptr

/-- Embedding of the update gate of the training loop (line 280):
len(replay_buffer) >= batch_size and (t + 1) % update_interval == 0. -/
def updateTriggered (b : ReplayBuffer α) (batch_size update_interval t : ℕ) : Bool :=
  decide (batch_size ≤ lenBuf b) && decide ((t + 1) % update_interval = 0)

/-- Embedding of exploration_schedule (dqn.py, lines 165-169): if the rate is
above exploration_end it is multiplied by exploration_decay, otherwise the
result is exploration_end. -/
def exploration_schedule (exploration_decay exploration_end rate : ℚ) : ℚ :=
  if rate > exploration_end then rate * exploration_decay else exploration_end

/-- The sequence of exploration rates along the training loop: the rate starts
at 1.0 (line 252) and exploration_schedule is applied once per environment
step (line 268). -/
def explorationRate (exploration_decay exploration_end : ℚ) : ℕ → ℚ
  | 0 => 1
  | n + 1 =>
      exploration_schedule exploration_decay exploration_end
        (explorationRate exploration_decay exploration_end n)

/-- Embedding of line 262 of the training loop:
d = False if ep_len == max_ep_len else d.  The first argument is the done
flag returned by the environment at this step, the result is the flag that
line 265 stores into the replay buffer. -/
def storedDone (ep_len max_ep_len : ℕ) (d : Bool) : Bool :=
  if ep_len = max_ep_len then false else d

/-- One stored transition: store(obs, act, rew, next_obs, done) writes the
entries of the five parallel arrays at a common slot (lines 30-34).  Machine
floats are modelled by rationals and observation vectors by rational lists;
the done flag is stored as a number, as in the float32 done_buf. -/
structure Transition where
  obs : List ℚ
  act : ℚ
  rew : ℚ
  obs2 : List ℚ
  done : ℚ
deriving Inhabited

/-- The value returned by sample_batch (lines 43-50): a dict with keys obs,
obs2, act, rew, done, each an array of the entries at the sampled indices. -/
structure Batch where
  obs : List (List ℚ)
  obs2 : List (List ℚ)
  act : List ℚ
  rew : List ℚ
  done : List ℚ

/-- Embedding of np.random.randint(lo, hi, size=k) by its numpy contract
(numpy is an external collaborator): k independent uniform draws from the
half-open range; g is the stream of raw pseudo-random naturals, reduced into
the range by remainder. -/
def randint (g : ℕ → ℕ) (lo hi k : ℕ) : List ℕ :=
  (List.range k).map (fun j => lo + g j % (hi - lo))

/-- The index draw on line 42: np.random.randint(0, self.size, size=batch_size). -/
def ReplayBuffer.sampleIdxs (b : ReplayBuffer Transition) (g : ℕ → ℕ)
    (batch_size : ℕ) : List ℕ :=
  randint g 0 b.size batch_size

/-- Embedding of ReplayBuffer.sample_batch (lines 38-50).  The method reads
the arrays at the drawn indices and builds the batch; it writes no buffer
state, so its effect on the buffer is the identity, returned in the second
component. -/
def ReplayBuffer.sample_batch (b : ReplayBuffer Transition) (g : ℕ → ℕ)
    (batch_size : ℕ) : Batch × ReplayBuffer Transition :=
  let idxs := b.sampleIdxs g batch_size
  (⟨idxs.map (fun i => (b.data.getD i default).obs),
    idxs.map (fun i => (b.data.getD i default).obs2),
    idxs.map (fun i => (b.data.getD i default).act),
    idxs.map (fun i => (b.data.getD i default).rew),
    idxs.map (fun i => (b.data.getD i default).done)⟩,
   b)

/-- Maximum over the action dimension (line 190: next_q.max(dim=1)). -/
def listMax : List ℚ → ℚ
  | [] => 0
  | x :: xs => xs.foldl max x

/-- Bellman backup of compute_loss_q for one sampled transition (lines
186-193, computed inside torch.no_grad, so it is a constant target for the
loss): next_q is the largest target-network value at the next observation and
backup = r + gamma * (1 - d) * next_q.  q_targ maps an observation to the
vector of per-action values of the target network. -/
def backupOf (gamma : ℚ) (q_targ : List ℚ → List ℚ) (r d : ℚ) (o2 : List ℚ) : ℚ :=
  r + gamma * (1 - d) * listMax (q_targ o2)

/-- The batched backup tensor of compute_loss_q: elementwise backupOf over
the reward, done and next-observation columns of the minibatch. -/
def computeBackups (gamma : ℚ) (q_targ : List ℚ → List ℚ)
    (rs ds : List ℚ) (o2s : List (List ℚ)) : List ℚ :=
  List.zipWith (fun rd o2 => backupOf gamma q_targ rd.1 rd.2 o2) (rs.zip ds) o2s

/-- Online and target parameter vectors, flattened; the target starts as an
exact copy (line 152: q_net_targ = deepcopy(q_net)). -/
structure NetState where
  q_net : List ℚ
  q_net_targ : List ℚ

/-- Polyak step of lines 224-229, elementwise in place:
p_targ = polyak * p_targ + (1 - polyak) * p. -/
def polyakUpdate (polyak : ℚ) (p_targ p : List ℚ) : List ℚ :=
  List.zipWith (fun pt pi => polyak * pt + (1 - polyak) * pi) p_targ p

/-- Embedding of update(data, grad_steps) (lines 209-229).  grad_step
abstracts one pass of lines 211-218 (zero_grad, backward of the loss on data,
gradient clipping, one optimizer step); it transforms only the online
parameters because the optimizer on line 204 holds only q_net.q.parameters()
and the target parameters are frozen on lines 155-156.  The loop runs
grad_steps times on the same data; afterwards lines 224-229 move the target
once by polyak averaging. -/
def update (grad_step : β → List ℚ → List ℚ) (polyak : ℚ) (data : β)
    (grad_steps : ℕ) (s : NetState) : NetState :=
  let q' := (List.range grad_steps).foldl (fun p _ => grad_step data p) s.q_net
  { q_net := q', q_net_targ := polyakUpdate polyak s.q_net_targ q' }

/-- The minibatches drawn by the update block of the training loop (lines
281-283): each of the update_interval iterations samples one fresh batch and
passes it to update; g i is the random stream consumed by the i-th draw. -/
def sampledBatches (b : ReplayBuffer Transition) (g : ℕ → ℕ → ℕ)
    (update_interval batch_size : ℕ) : List Batch :=
  (List.range update_interval).map (fun i => (b.sample_batch (g i) batch_size).1)

theorem ReplayBuffer.max_size_store (b : ReplayBuffer α) (x : α) :
    (b.store x).max_size = b.max_size := rfl

theorem ReplayBuffer.max_size_storeAll (b : ReplayBuffer α) (xs : List α) :
    (b.storeAll xs).max_size = b.max_size := by
  induction xs generalizing b with
  | nil => rfl
  | cons x xs ih => exact ih (b.store x)

theorem ReplayBuffer.size_storeAll (b : ReplayBuffer α) (xs : List α)
    (hs : b.size ≤ b.max_size) :
    (b.storeAll xs).size = min (b.size + xs.length) b.max_size := by
  induction xs generalizing b with
  | nil =>
      simp only [storeAll, List.foldl_nil, List.length_nil, Nat.add_zero]
      omega
  | cons x xs ih =>
      have h := ih (b.store x) (by simp only [store]; omega)
      simp only [storeAll, List.foldl_cons] at h ⊢
      rw [h]
      simp only [store, List.length_cons]
      omega

theorem ReplayBuffer.ptr_storeAll (b : ReplayBuffer α) (xs : List α)
    (hp : b.ptr % b.max_size = b.ptr) :
    (b.storeAll xs).ptr = (b.ptr + xs.length) % b.max_size := by
  induction xs generalizing b with
  | nil => simpa [storeAll] using hp.symm
  | cons x xs ih =>
      have hidem : (b.store x).ptr % (b.store x).max_size = (b.store x).ptr := by
        simp only [store]
        exact Nat.mod_mod_of_dvd _ (dvd_refl _)
      have h := ih (b.store x) hidem
      simp only [storeAll, List.foldl_cons] at h ⊢
      rw [h]
      simp only [store, List.length_cons]
      rw [Nat.mod_add_mod]
      congr 1
      omega

theorem ReplayBuffer.length_data_storeAll (b : ReplayBuffer α) (xs : List α) :
    (b.storeAll xs).data.length = b.data.length := by
  induction xs generalizing b with
  | nil => rfl
  | cons x xs ih =>
      have h := ih (b.store x)
      simpa [store, List.length_set] using h

theorem ReplayBuffer.storeAll_concat (b : ReplayBuffer α) (xs : List α) (x : α) :
    b.storeAll (xs ++ [x]) = (b.storeAll xs).store x := by
  simp [storeAll, List.foldl_append]

theorem ReplayBuffer.ptr_storeAll_init {α : Type} [Inhabited α] (C : ℕ) (xs : List α) :
    ((ReplayBuffer.init α C).storeAll xs).ptr = xs.length % C := by
  have h := ReplayBuffer.ptr_storeAll (ReplayBuffer.init α C) xs (by simp [ReplayBuffer.init])
  simpa [ReplayBuffer.init] using h

theorem ReplayBuffer.length_data_storeAll_init {α : Type} [Inhabited α] (C : ℕ) (xs : List α) :
    ((ReplayBuffer.init α C).storeAll xs).data.length = C := by
  have h := ReplayBuffer.length_data_storeAll (ReplayBuffer.init α C) xs
  simpa [ReplayBuffer.init] using h

/-- Slot-level content of the buffer after a run of store calls: slot m % C
holds the m-th stored value for every m among the most recent
min (number of stores) C store calls.  Since m % C is injective on any window
of C consecutive indices, this says the buffer holds exactly the most recent
capacity-many transitions once full, and all stored transitions before that. -/
theorem ReplayBuffer.getD_data_storeAll_init {α : Type} [Inhabited α] (C : ℕ) (hC : 0 < C)
    (xs : List α) (m : ℕ) (h1 : xs.length - C ≤ m) (h2 : m < xs.length) :
    ((ReplayBuffer.init α C).storeAll xs).data.getD (m % C) default = xs.getD m default := by
  induction xs using List.reverseRecOn with
  | nil => simp at h2
  | append_singleton xs x ih =>
      rw [ReplayBuffer.storeAll_concat]
      have hptr : ((ReplayBuffer.init α C).storeAll xs).ptr = xs.length % C :=
        ReplayBuffer.ptr_storeAll_init C xs
      have hlen : ((ReplayBuffer.init α C).storeAll xs).data.length = C :=
        ReplayBuffer.length_data_storeAll_init C xs
      simp only [List.length_append, List.length_cons, List.length_nil] at h1 h2
      by_cases hm : m = xs.length
      · subst hm
        have hin : xs.length % C < ((ReplayBuffer.init α C).storeAll xs).data.length := by
          rw [hlen]; exact Nat.mod_lt _ hC
        simp only [ReplayBuffer.store, hptr]
        rw [List.getD_eq_getElem?_getD, List.getElem?_set_self hin,
          List.getD_eq_getElem?_getD, List.getElem?_concat_length]
      · have hmn : m < xs.length := by omega
        have hne : xs.length % C ≠ m % C := by
          intro he
          have hdvd : C ∣ xs.length - m :=
            (Nat.modEq_iff_dvd' (le_of_lt hmn)).mp he.symm
          have hpos : 0 < xs.length - m := by omega
          have := Nat.le_of_dvd hpos hdvd
          omega
        simp only [ReplayBuffer.store, hptr]
        rw [List.getD_eq_getElem?_getD, List.getElem?_set_ne hne,
          List.getD_eq_getElem?_getD (xs ++ [x]) m default,
          List.getElem?_append_left hmn]
        simpa [List.getD_eq_getElem?_getD] using ih (by omega) hmn

/-- Claim C7 (confirmed).  After any sequence of store calls on a buffer of
capacity C greater than 0: size = min (number of stores) C, hence
0 <= size <= C and size equals the store count while below capacity; ptr
cycles as (number of stores) % C; the backing array keeps length C; and slot
m % C holds the m-th stored transition for each m among the most recent
min (number of stores) C stores, so the buffer holds exactly the most recent
C transitions once full (oldest-overwrite). -/
theorem buffer_invariant (α : Type) [Inhabited α] (C : ℕ) (hC : 0 < C) (xs : List α) :
    ((ReplayBuffer.init α C).storeAll xs).size = min xs.length C ∧
    ((ReplayBuffer.init α C).storeAll xs).size ≤ C ∧
    ((ReplayBuffer.init α C).storeAll xs).ptr = xs.length % C ∧
    ((ReplayBuffer.init α C).storeAll xs).data.length = C ∧
    ∀ m, xs.length - C ≤ m → m < xs.length →
      ((ReplayBuffer.init α C).storeAll xs).data.getD (m % C) default = xs.getD m default := by
  have hsize := ReplayBuffer.size_storeAll (ReplayBuffer.init α C) xs (Nat.zero_le _)
  have h0 : (ReplayBuffer.init α C).size = 0 := rfl
  have hmax : (ReplayBuffer.init α C).max_size = C := rfl
  rw [h0, hmax, Nat.zero_add] at hsize
  refine ⟨hsize, ?_, ReplayBuffer.ptr_storeAll_init C xs,
    ReplayBuffer.length_data_storeAll_init C xs,
    fun m hm1 hm2 => ReplayBuffer.getD_data_storeAll_init C hC xs m hm1 hm2⟩
  omega

/-- Witness for claim C7 at capacity 2 and three stores. -/
theorem buffer_invariant_witness :
    0 < 2 ∧
    (((ReplayBuffer.init ℕ 2).storeAll [10, 20, 30]).size = min 3 2 ∧
    ((ReplayBuffer.init ℕ 2).storeAll [10, 20, 30]).size ≤ 2 ∧
    ((ReplayBuffer.init ℕ 2).storeAll [10, 20, 30]).ptr = 3 % 2 ∧
    ((ReplayBuffer.init ℕ 2).storeAll [10, 20, 30]).data.length = 2 ∧
    ∀ m, 3 - 2 ≤ m → m < 3 →
      ((ReplayBuffer.init ℕ 2).storeAll [10, 20, 30]).data.getD (m % 2) default
        = [10, 20, 30].getD m default) := by
  refine ⟨by decide, ?_⟩
  have h := buffer_invariant ℕ 2 (by decide) [10, 20, 30]
  simpa using h

/-- Claim C1 (code_bug).  The size query of the replay buffer is the method
called len on the buffer, which returns ptr, not the valid usable count: on a
buffer of capacity 2 after exactly 2 stores, it returns 0 while the current
number of valid usable transitions, the size field equal to
min (stores) (capacity), is 2. -/
theorem len_returns_ptr_not_size :
    lenBuf ((ReplayBuffer.init ℕ 2).storeAll [5, 7]) = 0 ∧
    ((ReplayBuffer.init ℕ 2).storeAll [5, 7]).size = 2 := by decide

/-- Claim C2 (code_bug).  With capacity 4, batch size 3, update interval 2, at
step t = 3 the buffer has valid size 4 >= 3 and (t + 1) % 2 = 0, so the claim
mandates an update block; the gate on line 280 instead compares batch size
against len, which returns ptr = 0 after wraparound, and no update runs. -/
theorem update_gate_skips_despite_full_buffer :
    ((ReplayBuffer.init ℕ 4).storeAll [0, 1, 2, 3]).size = 4 ∧
    3 ≤ ((ReplayBuffer.init ℕ 4).storeAll [0, 1, 2, 3]).size ∧
    (3 + 1) % 2 = 0 ∧
    updateTriggered ((ReplayBuffer.init ℕ 4).storeAll [0, 1, 2, 3]) 3 2 3 = false := by
  decide

/-- Claim C9 (code_bug).  The dqn entry point performs no hyperparameter
validation: with batch size above the replay capacity the run is not rejected;
the training loop simply proceeds and its update gate is false at every step
t, for every buffer content, so no update ever happens and no failure is
raised. -/
theorem no_update_when_batch_exceeds_capacity (xs : List ℕ) (C bs ui t : ℕ)
    (hC : 0 < C) (hbs : C < bs) :
    updateTriggered ((ReplayBuffer.init ℕ C).storeAll xs) bs ui t = false := by
  have hptr := ReplayBuffer.ptr_storeAll_init (α := ℕ) C xs
  have hlt : xs.length % C < bs := lt_trans (Nat.mod_lt _ hC) hbs
  simp only [updateTriggered, lenBuf, hptr, Bool.and_eq_false_iff]
  left
  exact decide_eq_false (by omega)

/-- Witness for claim C9: capacity 2, batch size 3, three stores, step 0. -/
theorem no_update_when_batch_exceeds_capacity_witness :
    0 < 2 ∧ 2 < 3 ∧
    updateTriggered ((ReplayBuffer.init ℕ 2).storeAll [9, 9, 9]) 3 1 0 = false :=
  ⟨by decide, by decide,
    no_update_when_batch_exceeds_capacity [9, 9, 9] 2 3 1 0 (by decide) (by decide)⟩

/-- Counterexample for claim C5: with decay 1/2 and floor 1/3 the rate
sequence is 1, 1/2, 1/4, 1/3, ..., so at step 2 the rate is strictly below
the floor, and the step from rate 2 to rate 3 strictly increases, refuting
both the floor bound and monotonicity of the claim as stated. -/
theorem exploration_rate_dips_below_floor :
    explorationRate (1/2) (1/3) 2 < 1/3 ∧
    explorationRate (1/2) (1/3) 2 < explorationRate (1/2) (1/3) 3 := by
  norm_num [explorationRate, exploration_schedule]

/-- Claim C5 (corrected).  Starting from rate 1.0 with decay d in (0,1) and
floor f in (0,1]: every rate is at least d * f (the sequence can undershoot
the floor, but only by at most one decay factor); each step never rises above
max of the previous rate and f; the sequence is strictly decreasing while
above f; and it reaches f after finitely many steps and stays there, hence
converges to f. -/
theorem exploration_rate_props (d f : ℚ)
    (hd0 : 0 < d) (hd1 : d < 1) (hf0 : 0 < f) (hf1 : f ≤ 1) :
    (∀ n, d * f ≤ explorationRate d f n) ∧
    (∀ n, explorationRate d f (n + 1) ≤ max (explorationRate d f n) f) ∧
    (∀ n, f < explorationRate d f n →
      explorationRate d f (n + 1) < explorationRate d f n) ∧
    (∃ N, ∀ n, N ≤ n → explorationRate d f n = f) := by
  refine ⟨?_, ?_, ?_, ?_⟩
  · intro n
    induction n with
    | zero =>
        show d * f ≤ 1
        nlinarith
    | succ n ih =>
        show d * f ≤ exploration_schedule d f (explorationRate d f n)
        unfold exploration_schedule
        by_cases h : explorationRate d f n > f
        · rw [if_pos h]
          nlinarith
        · rw [if_neg h]
          nlinarith
  · intro n
    show exploration_schedule d f (explorationRate d f n) ≤
      max (explorationRate d f n) f
    unfold exploration_schedule
    by_cases h : explorationRate d f n > f
    · rw [if_pos h]
      have hr : explorationRate d f n * d ≤ explorationRate d f n := by nlinarith
      exact le_trans hr (le_max_left _ _)
    · rw [if_neg h]
      exact le_max_right _ _
  · intro n h
    show exploration_schedule d f (explorationRate d f n) < explorationRate d f n
    unfold exploration_schedule
    rw [if_pos h]
    nlinarith
  · have hconst : ∀ n, explorationRate d f n ≤ f →
        ∀ m, n < m → explorationRate d f m = f := by
      intro n hn m hm
      induction m with
      | zero => omega
      | succ m ih =>
          show exploration_schedule d f (explorationRate d f m) = f
          unfold exploration_schedule
          by_cases hnm : n < m
          · rw [ih hnm, if_neg (lt_irrefl f)]
          · have hmn : m = n := by omega
            subst hmn
            rw [if_neg (not_lt.mpr hn)]
    have hex : ∃ n, explorationRate d f n ≤ f := by
      by_contra hc
      push_neg at hc
      have hpow : ∀ n, explorationRate d f n = d ^ n := by
        intro n
        induction n with
        | zero => simp [explorationRate]
        | succ n ih =>
            show exploration_schedule d f (explorationRate d f n) = d ^ (n + 1)
            unfold exploration_schedule
            rw [if_pos (hc n), ih, pow_succ]
      obtain ⟨N, hN⟩ := exists_pow_lt_of_lt_one hf0 hd1
      have hf := hc N
      rw [hpow N] at hf
      exact absurd hN (not_lt.mpr (le_of_lt hf))
    obtain ⟨n0, hn0⟩ := hex
    exact ⟨n0 + 1, fun m hm => hconst n0 hn0 m (by omega)⟩

/-- Witness for claim C5 at decay 1/2 and floor 1/3. -/
theorem exploration_rate_props_witness :
    ((0:ℚ) < 1/2 ∧ (1/2:ℚ) < 1 ∧ (0:ℚ) < 1/3 ∧ (1/3:ℚ) ≤ 1) ∧
    ((∀ n, (1/2:ℚ) * (1/3) ≤ explorationRate (1/2) (1/3) n) ∧
     (∀ n, explorationRate (1/2) (1/3) (n + 1) ≤
        max (explorationRate (1/2) (1/3) n) (1/3)) ∧
     (∀ n, (1/3:ℚ) < explorationRate (1/2) (1/3) n →
        explorationRate (1/2) (1/3) (n + 1) < explorationRate (1/2) (1/3) n) ∧
     (∃ N, ∀ n, N ≤ n → explorationRate (1/2) (1/3) n = 1/3)) :=
  ⟨⟨by norm_num, by norm_num, by norm_num, by norm_num⟩,
   exploration_rate_props (1/2) (1/3) (by norm_num) (by norm_num) (by norm_num)
     (by norm_num)⟩

/-- Counterexample for claim C6: at a step where the episode length equals
max_ep_len and the environment reports a true termination (done flag true),
the flag written to the buffer is false, so it does not reflect the true
termination status there. -/
theorem stored_done_false_at_max_len_despite_termination :
    storedDone 5 5 true = false := by decide

/-- Claim C6 (corrected).  The stored flag is true exactly when the
environment reported termination and the episode length differs from
max_ep_len: truncation at the maximum length is never marked terminal, but a
genuine termination happening exactly at the max-length step is stored as
non-terminal as well. -/
theorem stored_done_spec (ep_len max_ep_len : ℕ) (d : Bool) :
    storedDone ep_len max_ep_len d = true ↔ (d = true ∧ ep_len ≠ max_ep_len) := by
  unfold storedDone
  split <;> simp_all

theorem computeBackups_getD (gamma : ℚ) (q_targ : List ℚ → List ℚ)
    (rs ds : List ℚ) (o2s : List (List ℚ)) (i : ℕ)
    (hr : i < rs.length) (hd : i < ds.length) (ho : i < o2s.length) :
    (computeBackups gamma q_targ rs ds o2s).getD i 0
      = backupOf gamma q_targ (rs.getD i 0) (ds.getD i 0) (o2s.getD i []) := by
  have hz : i < (computeBackups gamma q_targ rs ds o2s).length := by
    simp only [computeBackups, List.length_zipWith, List.length_zip]
    omega
  unfold computeBackups at hz ⊢
  rw [List.getD_eq_getElem?_getD, List.getElem?_eq_getElem hz, Option.getD_some,
    List.getElem_zipWith, List.getElem_zip,
    List.getD_eq_getElem?_getD rs, List.getElem?_eq_getElem hr, Option.getD_some,
    List.getD_eq_getElem?_getD ds, List.getElem?_eq_getElem hd, Option.getD_some,
    List.getD_eq_getElem?_getD o2s, List.getElem?_eq_getElem ho, Option.getD_some]

/-- Claim C3 (confirmed).  Each entry of the backup tensor computed by
compute_loss_q equals reward + gamma * (1 - done) * (max over actions of the
target-network values at the next observation); when the stored terminal flag
is 1, the entry is exactly the reward, and it does not depend on the target
network at all. -/
theorem backup_formula_and_terminal (gamma : ℚ) (q_targ : List ℚ → List ℚ)
    (rs ds : List ℚ) (o2s : List (List ℚ)) (i : ℕ)
    (hr : i < rs.length) (hd : i < ds.length) (ho : i < o2s.length) :
    (computeBackups gamma q_targ rs ds o2s).getD i 0
      = rs.getD i 0
        + gamma * (1 - ds.getD i 0) * listMax (q_targ (o2s.getD i [])) ∧
    (ds.getD i 0 = 1 →
      (computeBackups gamma q_targ rs ds o2s).getD i 0 = rs.getD i 0) ∧
    (∀ q_targ' : List ℚ → List ℚ, ds.getD i 0 = 1 →
      (computeBackups gamma q_targ rs ds o2s).getD i 0
        = (computeBackups gamma q_targ' rs ds o2s).getD i 0) := by
  have h := computeBackups_getD gamma q_targ rs ds o2s i hr hd ho
  refine ⟨h, ?_, ?_⟩
  · intro h1
    rw [h, backupOf, h1]
    ring
  · intro q_targ' h1
    have h' := computeBackups_getD gamma q_targ' rs ds o2s i hr hd ho
    rw [h, h', backupOf, backupOf, h1]
    ring

/-- Witness for claim C3: gamma 1/2, one terminal transition with reward 5,
and a target network answering the constant value vector with entries 2, 3. -/
theorem backup_formula_and_terminal_witness :
    0 < ([(5 : ℚ)]).length ∧ 0 < ([(1 : ℚ)]).length ∧
    0 < ([[(0 : ℚ)]]).length ∧
    ((computeBackups (1/2) (fun _ => [2, 3]) [5] [1] [[0]]).getD 0 0
      = ([(5 : ℚ)]).getD 0 0
        + 1/2 * (1 - ([(1 : ℚ)]).getD 0 0)
          * listMax ((fun (_ : List ℚ) => [(2 : ℚ), 3]) (([[(0 : ℚ)]]).getD 0 [])) ∧
    (([(1 : ℚ)]).getD 0 0 = 1 →
      (computeBackups (1/2) (fun _ => [2, 3]) [5] [1] [[0]]).getD 0 0
        = ([(5 : ℚ)]).getD 0 0) ∧
    (∀ q_targ' : List ℚ → List ℚ, ([(1 : ℚ)]).getD 0 0 = 1 →
      (computeBackups (1/2) (fun _ => [2, 3]) [5] [1] [[0]]).getD 0 0
        = (computeBackups (1/2) q_targ' [5] [1] [[0]]).getD 0 0)) :=
  ⟨by simp, by simp, by simp,
    backup_formula_and_terminal (1/2) (fun _ => [2, 3]) [5] [1] [[0]] 0
      (by simp) (by simp) (by simp)⟩

theorem foldl_range_const (f : γ → γ) (n : ℕ) (x : γ) :
    (List.range n).foldl (fun p _ => f p) x = f^[n] x := by
  induction n with
  | zero => rfl
  | succ n ih =>
      rw [List.range_succ, List.foldl_append]
      simp only [List.foldl_cons, List.foldl_nil]
      rw [ih, Function.iterate_succ_apply']

theorem polyakUpdate_getD (polyak : ℚ) (pt p : List ℚ) (i : ℕ)
    (h1 : i < pt.length) (h2 : i < p.length) :
    (polyakUpdate polyak pt p).getD i 0
      = polyak * pt.getD i 0 + (1 - polyak) * p.getD i 0 := by
  have hz : i < (polyakUpdate polyak pt p).length := by
    simp only [polyakUpdate, List.length_zipWith]
    omega
  unfold polyakUpdate at hz ⊢
  rw [List.getD_eq_getElem?_getD, List.getElem?_eq_getElem hz, Option.getD_some,
    List.getElem_zipWith,
    List.getD_eq_getElem?_getD pt, List.getElem?_eq_getElem h1, Option.getD_some,
    List.getD_eq_getElem?_getD p, List.getElem?_eq_getElem h2, Option.getD_some]

/-- Claim C4 (confirmed).  In a call to update, the target parameters are
changed only by one polyak averaging step, applied to the pre-call target
values and the online values obtained after all grad_steps gradient steps; in
particular the number of polyak applications per call is one, independent of
grad_steps, and the target never passes through the gradient step function,
which acts on the online parameters only. -/
theorem update_polyak_once_after_grad_steps (grad_step : β → List ℚ → List ℚ)
    (polyak : ℚ) (data : β) (grad_steps : ℕ) (s : NetState) :
    (update grad_step polyak data grad_steps s).q_net_targ
      = polyakUpdate polyak s.q_net_targ ((grad_step data)^[grad_steps] s.q_net) ∧
    ∀ i, i < s.q_net_targ.length →
      i < ((grad_step data)^[grad_steps] s.q_net).length →
      (update grad_step polyak data grad_steps s).q_net_targ.getD i 0
        = polyak * s.q_net_targ.getD i 0
          + (1 - polyak) * ((grad_step data)^[grad_steps] s.q_net).getD i 0 := by
  have hq : (update grad_step polyak data grad_steps s).q_net_targ
      = polyakUpdate polyak s.q_net_targ ((grad_step data)^[grad_steps] s.q_net) := by
    unfold update
    rw [foldl_range_const]
  refine ⟨hq, fun i h1 h2 => ?_⟩
  rw [hq, polyakUpdate_getD polyak _ _ i h1 h2]

/-- Witness for claim C4: one scalar parameter, two gradient steps that each
add 1, polyak 1/2, online parameter starting at 1 and target at 3. -/
theorem update_polyak_once_after_grad_steps_witness :
    (update (fun (_ : ℚ) p => p.map (fun v => v + 1)) (1/2) 0 2
        ⟨[1], [3]⟩).q_net_targ.getD 0 0
      = 1/2 * ([(3 : ℚ)]).getD 0 0
        + (1 - 1/2)
          * (((fun (_ : ℚ) p => p.map (fun v => v + 1)) 0)^[2]
              ([(1 : ℚ)])).getD 0 0 :=
  (update_polyak_once_after_grad_steps (fun (_ : ℚ) p => p.map (fun v => v + 1))
    (1/2) 0 2 ⟨[1], [3]⟩).2 0 (by simp) (by simp)

/-- Claim C10 (confirmed).  Within one call to update the same minibatch data
is consumed by every gradient step: the online parameters after the call are
the grad_steps-fold iterate of the one-batch gradient step at that fixed
data, and one more gradient step applies the same function again; in the
update block of the training loop, exactly update_interval batches are drawn,
one per update call. -/
theorem same_batch_reused_across_grad_steps (grad_step : β → List ℚ → List ℚ)
    (polyak : ℚ) (data : β) (grad_steps : ℕ) (s : NetState)
    (b : ReplayBuffer Transition) (g : ℕ → ℕ → ℕ)
    (update_interval batch_size : ℕ) :
    (update grad_step polyak data grad_steps s).q_net
      = (grad_step data)^[grad_steps] s.q_net ∧
    (update grad_step polyak data (grad_steps + 1) s).q_net
      = grad_step data ((update grad_step polyak data grad_steps s).q_net) ∧
    (sampledBatches b g update_interval batch_size).length = update_interval := by
  have h : ∀ n, (update grad_step polyak data n s).q_net
      = (grad_step data)^[n] s.q_net := by
    intro n
    unfold update
    rw [foldl_range_const]
  refine ⟨h grad_steps, ?_, by simp [sampledBatches]⟩
  rw [h grad_steps, h (grad_steps + 1), Function.iterate_succ_apply']

/-- Claim C8 (confirmed).  For a buffer of positive valid size, every sampled
index lies strictly below size (so only written slots are referenced), the
index list and all five batch fields have exactly batch-size entries, and the
buffer state after sampling is unchanged. -/
theorem sample_batch_valid (b : ReplayBuffer Transition) (g : ℕ → ℕ) (k : ℕ)
    (h : 0 < b.size) :
    (∀ i ∈ b.sampleIdxs g k, i < b.size) ∧
    (b.sampleIdxs g k).length = k ∧
    (b.sample_batch g k).1.obs.length = k ∧
    (b.sample_batch g k).1.obs2.length = k ∧
    (b.sample_batch g k).1.act.length = k ∧
    (b.sample_batch g k).1.rew.length = k ∧
    (b.sample_batch g k).1.done.length = k ∧
    (b.sample_batch g k).2 = b := by
  refine ⟨?_, ?_, ?_, ?_, ?_, ?_, ?_, rfl⟩
  · intro i hi
    simp only [ReplayBuffer.sampleIdxs, randint, List.mem_map, List.mem_range] at hi
    obtain ⟨j, hj, rfl⟩ := hi
    simpa using Nat.mod_lt (g j) h
  all_goals
    simp [ReplayBuffer.sample_batch, ReplayBuffer.sampleIdxs, randint]

/-- Witness for claim C8 on a capacity-2 buffer holding one stored
transition, sampling three indices. -/
theorem sample_batch_valid_witness :
    0 < ((ReplayBuffer.init Transition 2).storeAll [default]).size ∧
    ((∀ i ∈ ((ReplayBuffer.init Transition 2).storeAll [default]).sampleIdxs
        (fun _ => 0) 3,
      i < ((ReplayBuffer.init Transition 2).storeAll [default]).size) ∧
    (((ReplayBuffer.init Transition 2).storeAll [default]).sampleIdxs
        (fun _ => 0) 3).length = 3 ∧
    (((ReplayBuffer.init Transition 2).storeAll [default]).sample_batch
        (fun _ => 0) 3).1.obs.length = 3 ∧
    (((ReplayBuffer.init Transition 2).storeAll [default]).sample_batch
        (fun _ => 0) 3).1.obs2.length = 3 ∧
    (((ReplayBuffer.init Transition 2).storeAll [default]).sample_batch
        (fun _ => 0) 3).1.act.length = 3 ∧
    (((ReplayBuffer.init Transition 2).storeAll [default]).sample_batch
        (fun _ => 0) 3).1.rew.length = 3 ∧
    (((ReplayBuffer.init Transition 2).storeAll [default]).sample_batch
        (fun _ => 0) 3).1.done.length = 3 ∧
    (((ReplayBuffer.init Transition 2).storeAll [default]).sample_batch
        (fun _ => 0) 3).2
      = (ReplayBuffer.init Transition 2).storeAll [default]) := by
  have hs : 0 < ((ReplayBuffer.init Transition 2).storeAll [default]).size := by
    have h := ReplayBuffer.size_storeAll (ReplayBuffer.init Transition 2)
      [default] (Nat.zero_le _)
    have h0 : (ReplayBuffer.init Transition 2).size = 0 := rfl
    have hmax : (ReplayBuffer.init Transition 2).max_size = 2 := rfl
    rw [h0, hmax] at h
    simp at h
    omega
  exact ⟨hs, sample_batch_valid _ (fun _ => 0) 3 hs⟩

end SpinUpDQN
